import Mathlib

/-!
Shallow embedding of the radioreceiver NaCl DSP pipeline (nacl-src/dsp.cc,
nacl-src/wbfm_decoder.cc, nacl-src/decode-module.cc).

Machine floats are modelled as exact rationals; transcendental library
functions (sin, cos, sqrt, exp) are abstract parameters of type ℚ → ℚ that
are frozen into each operator's state at construction time, exactly where
the C++ constructors call them.  C++ float-to-int conversion is modelled by
truncation toward zero, and C++ integer division by truncated division.
-/

namespace RadioReceiver

/-- Constant kPi from dsp.cc (note: the source literal itself, which differs
from π in the tenth decimal). -/
def kPi : ℚ := 3.141592653989793238

/-- Constant k2Pi from dsp.cc. -/
def k2Pi : ℚ := 2 * kPi

/-- Constant kPi2 from dsp.cc. -/
def kPi2 : ℚ := kPi / 2

/-- C++ float-to-int conversion: truncation toward zero. -/
def truncToInt (q : ℚ) : ℤ := if 0 ≤ q then ⌊q⌋ else ⌈q⌉

/-- Truncation toward zero, clamped to ℕ (used where the C++ value is
nonnegative and consumed as an index or size). -/
def truncToNat (q : ℚ) : ℕ := (truncToInt q).toNat

theorem truncToInt_of_nonneg {q : ℚ} (h : 0 ≤ q) : truncToInt q = ⌊q⌋ := by
  simp [truncToInt, h]

theorem truncToNat_of_nonneg {q : ℚ} (h : 0 ≤ q) : truncToNat q = ⌊q⌋₊ := by
  rw [truncToNat, truncToInt_of_nonneg h, Int.floor_toNat]

/-- samplesFromUint8 (dsp.cc lines 63-69): each byte b becomes b/128.0 - 1. -/
def samplesFromUint8 (buffer : List ℕ) : List ℚ :=
  buffer.map (fun (b : ℕ) => (b : ℚ) / 128 - 1)

/-! ## FIRFilter (dsp.cc lines 72-98) -/

/-- State of FIRFilter: coefficients are stored reversed (constructor calls
std::reverse); `curSamples` is the working window; `offset` is
(coefficients.size() - 1) * step. -/
structure FIRFilter where
  coefficients : List ℚ
  curSamples : List ℚ
  step : ℕ
  offset : ℕ

/-- FIRFilter constructor: reverses the coefficients and zero-fills a history
of (N-1)*step samples. -/
def FIRFilter.init (coefficients : List ℚ) (step : ℕ) : FIRFilter :=
  { coefficients := coefficients.reverse
    curSamples := List.replicate ((coefficients.length - 1) * step) 0
    step := step
    offset := (coefficients.length - 1) * step }

/-- FIRFilter::loadSamples: moves the last `offset` values of the working
window to the front and appends the new block after them. -/
def FIRFilter.loadSamples (f : FIRFilter) (samples : List ℚ) : FIRFilter :=
  { f with curSamples := f.curSamples.drop (f.curSamples.length - f.offset) ++ samples }

/-- FIRFilter::get: inner product of the reversed coefficients with the
working window starting at `index`, striding by `step`. -/
def FIRFilter.get (f : FIRFilter) (index : ℕ) : ℚ :=
  ∑ ic ∈ Finset.range f.coefficients.length,
    f.coefficients.getD ic 0 * f.curSamples.getD (index + ic * f.step) 0

/-! ## Downsampler and IQDownsampler (dsp.cc lines 101-132) -/

/-- Downsampler state: a stride-1 FIR filter and the rate multiplier
inRate/outRate. -/
structure Downsampler where
  filter : FIRFilter
  rateMul : ℚ

/-- Downsampler constructor. -/
def Downsampler.init (inRate outRate : ℤ) (coefs : List ℚ) : Downsampler :=
  { filter := FIRFilter.init coefs 1, rateMul := (inRate : ℚ) / (outRate : ℚ) }

/-- Downsampler::downsample: loads the block, then reads
floor(block_len / rateMul) outputs at the truncated fractional cursor. -/
def Downsampler.downsample (d : Downsampler) (samples : List ℚ) :
    Downsampler × List ℚ :=
  let f := d.filter.loadSamples samples
  let outLen := truncToNat ((samples.length : ℚ) / d.rateMul)
  ({ d with filter := f },
   (List.range outLen).map (fun (i : ℕ) => f.get (truncToNat ((i : ℚ) * d.rateMul))))

/-- IQDownsampler state: a stride-2 FIR filter and the rate multiplier. -/
structure IQDownsampler where
  filter : FIRFilter
  rateMul : ℚ

/-- IQDownsampler constructor. -/
def IQDownsampler.init (inRate outRate : ℤ) (coefs : List ℚ) : IQDownsampler :=
  { filter := FIRFilter.init coefs 2, rateMul := (inRate : ℚ) / (outRate : ℚ) }

/-- IQDownsampler::downsample: numSamples = trunc(len / (2*rateMul)); even
filter positions give I, odd positions give Q. -/
def IQDownsampler.downsample (d : IQDownsampler) (samples : List ℚ) :
    IQDownsampler × (List ℚ × List ℚ) :=
  let numSamples := truncToNat ((samples.length : ℚ) / (2 * d.rateMul))
  let f := d.filter.loadSamples samples
  ({ d with filter := f },
   ((List.range numSamples).map (fun (i : ℕ) => f.get (2 * truncToNat ((i : ℚ) * d.rateMul))),
    (List.range numSamples).map (fun (i : ℕ) => f.get (2 * truncToNat ((i : ℚ) * d.rateMul) + 1))))

/-! ## Low-pass kernel generator (dsp.cc lines 38-61) -/

/-- The loop body of getLowPassFIRCoeffs (dsp.cc lines 45-56): the value of
tap i before normalization, for the given freq = halfAmplFreq/sampleRate,
forced length and center = length/2. -/
def lowpassVal (sinF cosF : ℚ → ℚ) (freq : ℚ) (length center i : ℕ) : ℚ :=
  if i = center then k2Pi * freq
  else
    let angle := k2Pi * ((i : ℚ) + 1) / ((length : ℚ) + 1)
    sinF (k2Pi * freq * (((i : ℤ) - (center : ℤ) : ℤ) : ℚ)) /
        (((i : ℤ) - (center : ℤ) : ℤ) : ℚ) *
      (0.42 - 0.5 * cosF angle + 0.08 * cosF (2 * angle))

/-- getLowPassFIRCoeffs: forces the length odd, builds a Blackman-windowed
sinc (through the abstract `sinF`/`cosF`), and normalizes by the sum. -/
def getLowPassFIRCoeffs (sinF cosF : ℚ → ℚ) (sampleRate : ℤ) (halfAmplFreq : ℚ)
    (length0 : ℕ) : List ℚ :=
  let length := length0 + (length0 + 1) % 2
  let freq := halfAmplFreq / (sampleRate : ℚ)
  let center := length / 2
  let vals := (List.range length).map (lowpassVal sinF cosF freq length center)
  vals.map (fun v => v / vals.sum)

/-! ## FMDemodulator (dsp.cc lines 170-224) -/

/-- myatan2 (dsp.cc lines 170-193): rational polynomial approximation of
atan2; all operations are exact rational arithmetic in the source. -/
def myatan2 (y x : ℚ) : ℚ :=
  let sgn : ℚ := if y < 0 then -1 else 1
  let y1 : ℚ := if y < 0 then -y else y
  let ang : ℚ := if x = y1 then 0 else if x > y1 then 0 else -kPi2
  let div : ℚ := if x = y1 then 1 else if x > y1 then y1 / x else x / y1
  let sgn1 : ℚ := if x = y1 then sgn else if x > y1 then sgn else sgn * -1
  sgn1 * (ang + div /
    (0.98419158358617365 + div * (0.093485702629671305 + div * 0.19556307900617517)))

/-- FMDemodulator state (dsp.cc lines 196-224). -/
structure FMDemodulator where
  amplConv : ℚ
  downsampler : IQDownsampler
  lI : ℚ
  lQ : ℚ
  hasCarrier : Bool

/-- FMDemodulator constructor: amplConv = outRate/(k2Pi*maxF); the IQ
downsampler gets a low-pass kernel at the input rate. -/
def FMDemodulator.init (sinF cosF : ℚ → ℚ) (inRate outRate maxF : ℤ)
    (filterFreq : ℚ) (kernelLen : ℕ) : FMDemodulator :=
  { amplConv := (outRate : ℚ) / (k2Pi * (maxF : ℚ))
    downsampler := IQDownsampler.init inRate outRate
      (getLowPassFIRCoeffs sinF cosF inRate filterFreq kernelLen)
    lI := 0
    lQ := 0
    hasCarrier := false }

/-- Per-sample loop of FMDemodulator::demodulateTuned: carries
(lI, lQ, sigSqrSum) and emits the discriminator outputs.  Note the source
accumulates `lI_ * lI_` (the I component only) after `lI_ = I`. -/
def fmLoop (amplConv : ℚ) : ℚ → ℚ → ℚ → List (ℚ × ℚ) → ℚ × ℚ × ℚ × List ℚ
  | lI, lQ, sig, [] => (lI, lQ, sig, [])
  | lI, lQ, sig, (i, q) :: rest =>
      let re := lI * i + lQ * q
      let im := lI * q - i * lQ
      let o := myatan2 im re * amplConv
      let r := fmLoop amplConv i q (sig + i * i) rest
      (r.1, r.2.1, r.2.2.1, o :: r.2.2.2)

/-- FMDemodulator::demodulateTuned (dsp.cc lines 203-220): IQ-downsample,
run the discriminator loop, and set hasCarrier to
sigSqrSum > 0.002 * outLen. -/
def FMDemodulator.demodulateTuned (d : FMDemodulator) (samples : List ℚ) :
    FMDemodulator × List ℚ :=
  let r := d.downsampler.downsample samples
  let outLen := r.2.1.length
  let l := fmLoop d.amplConv d.lI d.lQ 0 (r.2.1.zip r.2.2)
  ({ d with downsampler := r.1, lI := l.1, lQ := l.2.1,
            hasCarrier := decide (l.2.2.1 > 0.002 * (outLen : ℚ)) },
   l.2.2.2)

/-! ## AMDemodulator (dsp.cc lines 135-167) -/

/-- The DC estimate of AMDemodulator::demodulateTuned: std::accumulate with
the int literal 0 as initial value truncates every partial sum toward zero,
and the subsequent division by outLen is C++ int division. -/
def amDCAverage (l : List ℚ) : ℚ :=
  ((l.foldl (fun acc x => truncToInt ((acc : ℚ) + x)) (0 : ℤ)).tdiv (l.length : ℤ) : ℤ)

/-- AMDemodulator state. -/
structure AMDemodulator where
  downsampler : IQDownsampler
  sqrtF : ℚ → ℚ
  hasCarrier : Bool

/-- AMDemodulator constructor. -/
def AMDemodulator.init (sinF cosF sqrtF : ℚ → ℚ) (inRate outRate : ℤ)
    (filterFreq : ℚ) (kernelLen : ℕ) : AMDemodulator :=
  { downsampler := IQDownsampler.init inRate outRate
      (getLowPassFIRCoeffs sinF cosF inRate filterFreq kernelLen)
    sqrtF := sqrtF
    hasCarrier := false }

/-- AMDemodulator::demodulateTuned (dsp.cc lines 140-163): subtract the
(truncation-corrupted) DC estimates, take amplitudes, normalize around the
block mean amplitude. -/
def AMDemodulator.demodulateTuned (d : AMDemodulator) (samples : List ℚ) :
    AMDemodulator × List ℚ :=
  let r := d.downsampler.downsample samples
  let outLen := r.2.1.length
  let iAvg := amDCAverage r.2.1
  let qAvg := amDCAverage r.2.2
  let powers := (r.2.1.zip r.2.2).map
    (fun p => (p.1 - iAvg) * (p.1 - iAvg) + (p.2 - qAvg) * (p.2 - qAvg))
  let ampls := powers.map d.sqrtF
  let sigSum := ampls.sum
  let sigSqrSum := powers.sum
  let halfPoint := sigSum / (outLen : ℚ)
  ({ d with downsampler := r.1,
            hasCarrier := decide (sigSqrSum > 0.002 * (outLen : ℚ)) },
   ampls.map (fun o => (o - halfPoint) / halfPoint))

/-! ## StereoSeparator (dsp.cc lines 227-278) -/

/-- ExpAverage (dsp.cc lines 227-240). -/
structure ExpAverage where
  weight : ℚ
  avg : ℚ

/-- ExpAverage::add. -/
def ExpAverage.add (e : ExpAverage) (value : ℚ) : ExpAverage :=
  { e with avg := (e.weight * e.avg + value) / (e.weight + 1) }

/-- The angle written into slot i of the separator's tables: the source
computes `(pilotFreq + i / 100 - 40) * k2Pi / sampleRate` in C++ int
arithmetic, so `i / 100` is integer division. -/
def tableFreq (sampleRate pilotFreq : ℤ) (i : ℕ) : ℚ :=
  ((pilotFreq + ((i / 100 : ℕ) : ℤ) - 40 : ℤ) : ℚ) * k2Pi / (sampleRate : ℚ)

/-- StereoSeparator state: unit phasor, sin/cos tables, three EMAs. -/
structure StereoSeparator where
  sinTable : List ℚ
  cosTable : List ℚ
  sinP : ℚ
  cosP : ℚ
  iavg : ExpAverage
  qavg : ExpAverage
  cavg : ExpAverage

/-- StereoSeparator constructor (dsp.cc lines 242-252): phasor (0,1), EMA
weights truncated from sampleRate*0.03 and sampleRate*0.15, and 8001 table
entries through the abstract sine and cosine. -/
def StereoSeparator.init (sinF cosF : ℚ → ℚ) (sampleRate pilotFreq : ℤ) :
    StereoSeparator :=
  { sinTable := (List.range 8001).map (fun i => sinF (tableFreq sampleRate pilotFreq i))
    cosTable := (List.range 8001).map (fun i => cosF (tableFreq sampleRate pilotFreq i))
    sinP := 0
    cosP := 1
    iavg := { weight := (truncToInt ((sampleRate : ℚ) * 0.03) : ℚ), avg := 0 }
    qavg := { weight := (truncToInt ((sampleRate : ℚ) * 0.03) : ℚ), avg := 0 }
    cavg := { weight := (truncToInt ((sampleRate : ℚ) * 0.15) : ℚ), avg := 0 } }

/-- The branch structure computing `corr` (dsp.cc lines 265-269). -/
def sepCorr (hdev vdev : ℚ) : ℚ :=
  if 0 < vdev then max (-4) (min 4 (hdev / vdev))
  else if hdev = 0 then 0 else if 0 < hdev then 4 else -4

/-- roundf: round half away from zero, as in C. -/
def roundHalfAway (q : ℚ) : ℤ :=
  if 0 ≤ q then ⌊q + 1 / 2⌋ else -⌊-q + 1 / 2⌋

/-- The table index `roundf((corr + 4) * 1000)` (dsp.cc line 270). -/
def sepIdx (corr : ℚ) : ℤ := roundHalfAway ((corr + 4) * 1000)

/-- One iteration of the loop in StereoSeparator::separate (dsp.cc lines
260-275), in source order: update qavg and iavg, mix the output with the
doubled oscillator, compute corr, rotate the phasor by the table entry,
accumulate corr² into cavg. -/
def StereoSeparator.sepStep (st : StereoSeparator) (x : ℚ) :
    StereoSeparator × ℚ :=
  let qavg := st.qavg.add (x * st.cosP)
  let iavg := st.iavg.add (x * st.sinP)
  let hdev := qavg.avg
  let vdev := iavg.avg
  let out := x * st.sinP * st.cosP * 2
  let corr := sepCorr hdev vdev
  let idx := (sepIdx corr).toNat
  let newSin := st.sinP * st.cosTable.getD idx 0 + st.cosP * st.sinTable.getD idx 0
  let newCos := st.cosP * st.cosTable.getD idx 0 - st.sinP * st.sinTable.getD idx 0
  ({ st with sinP := newSin, cosP := newCos, iavg := iavg, qavg := qavg,
             cavg := st.cavg.add (corr * corr) },
   out)

/-- The per-block loop of StereoSeparator::separate. -/
def sepLoop (st : StereoSeparator) : List ℚ → StereoSeparator × List ℚ
  | [] => (st, [])
  | x :: xs =>
      let r := st.sepStep x
      let rest := sepLoop r.1 xs
      (rest.1, r.2 :: rest.2)

/-- StereoSeparator::separate (dsp.cc lines 258-278): run the loop, then
report the pilot as present when the final cavg is below kCorrThres = 4. -/
def StereoSeparator.separate (st : StereoSeparator) (samples : List ℚ) :
    StereoSeparator × (Bool × List ℚ) :=
  let r := sepLoop st samples
  (r.1, (decide (r.1.cavg.avg < 4), r.2))

/-! ## Deemphasizer (dsp.cc lines 281-289) -/

/-- Deemphasizer state: the multiplier exp(-1e6/(tc*fs)) frozen at
construction, and the last output value. -/
structure Deemphasizer where
  mult : ℚ
  val : ℚ

/-- Deemphasizer constructor, through the abstract exponential. -/
def Deemphasizer.init (expF : ℚ → ℚ) (sampleRate timeConstantUS : ℤ) :
    Deemphasizer :=
  { mult := expF (-(1000000 : ℚ) / ((timeConstantUS * sampleRate : ℤ) : ℚ))
    val := 0 }

/-- Deemphasizer::inPlace: one-pole IIR, val = (1-mult)*x + mult*val. -/
def Deemphasizer.inPlace (d : Deemphasizer) : List ℚ → Deemphasizer × List ℚ
  | [] => (d, [])
  | x :: xs =>
      let v := (1 - d.mult) * x + d.mult * d.val
      let rest := Deemphasizer.inPlace { d with val := v } xs
      (rest.1, v :: rest.2)

/-! ## WBFMDecoder (wbfm_decoder.cc, wbfm_decoder.h) -/

/-- StereoAudio record. -/
structure StereoAudio where
  left : List ℚ
  right : List ℚ
  inStereo : Bool
  carrier : Bool

/-- WBFMDecoder state (wbfm_decoder.h lines 37-52). -/
structure WBFMDecoder where
  demodulator : FMDemodulator
  filterCoefs : List ℚ
  monoSampler : Downsampler
  stereoSampler : Downsampler
  stereoSeparator : StereoSeparator
  leftDeemph : Deemphasizer
  rightDeemph : Deemphasizer

/-- WBFMDecoder constructor (wbfm_decoder.cc lines 30-37), with
kInterRate = 336000, kMaxF = 75000, kPilotFreq = 19000, kDeemphTc = 50,
kFilterFreq = 10000, kFilterLen = 41 from wbfm_decoder.h. -/
def WBFMDecoder.init (sinF cosF expF : ℚ → ℚ) (inRate outRate : ℤ) :
    WBFMDecoder :=
  let filterCoefs := getLowPassFIRCoeffs sinF cosF 336000 10000 41
  { demodulator := FMDemodulator.init sinF cosF inRate 336000 75000
      ((75000 : ℚ) * 0.9) 101
    filterCoefs := filterCoefs
    monoSampler := Downsampler.init 336000 outRate filterCoefs
    stereoSampler := Downsampler.init 336000 outRate filterCoefs
    stereoSeparator := StereoSeparator.init sinF cosF 336000 19000
    leftDeemph := Deemphasizer.init expF outRate 50
    rightDeemph := Deemphasizer.init expF outRate 50 }

/-- The in-place loop of wbfm_decoder.cc lines 52-55: for each index below
the length of `diff`, add `c * diff[i]` to the channel; entries past the
end of `diff` are untouched. -/
def combineDiff (xs diff : List ℚ) (c : ℚ) : List ℚ :=
  xs.zipWith (fun a b => a + c * b) diff ++ xs.drop diff.length

/-- WBFMDecoder::decode, lines 39-57: demodulate, mono-downsample into both
channels, and when stereo is requested and the pilot is present, fold the
downsampled difference signal into the channels (this is the stage before
the de-emphasis of lines 60-61). -/
def WBFMDecoder.decodeCombine (d : WBFMDecoder) (samples : List ℚ)
    (inStereo : Bool) : WBFMDecoder × StereoAudio :=
  let dm := d.demodulator.demodulateTuned samples
  let mono := d.monoSampler.downsample dm.2
  let base : StereoAudio :=
    { left := mono.2, right := mono.2, inStereo := false, carrier := dm.1.hasCarrier }
  if inStereo then
    let sep := d.stereoSeparator.separate dm.2
    if sep.2.1 then
      let diff := d.stereoSampler.downsample sep.2.2
      ({ d with demodulator := dm.1, monoSampler := mono.1,
                stereoSeparator := sep.1, stereoSampler := diff.1 },
       { left := combineDiff mono.2 diff.2 2
         right := combineDiff mono.2 diff.2 (-2)
         inStereo := true
         carrier := dm.1.hasCarrier })
    else
      ({ d with demodulator := dm.1, monoSampler := mono.1,
                stereoSeparator := sep.1 }, base)
  else
    ({ d with demodulator := dm.1, monoSampler := mono.1 }, base)

/-- WBFMDecoder::decode (wbfm_decoder.cc lines 39-63): the combine stage
followed by per-channel de-emphasis. -/
def WBFMDecoder.decode (d : WBFMDecoder) (samples : List ℚ) (inStereo : Bool) :
    WBFMDecoder × StereoAudio :=
  let r := d.decodeCombine samples inStereo
  let l := r.1.leftDeemph.inPlace r.2.left
  let rr := r.1.rightDeemph.inPlace r.2.right
  ({ r.1 with leftDeemph := l.1, rightDeemph := rr.1 },
   { r.2 with left := l.2, right := rr.2 })

/-! ## Host (decode-module.cc) -/

/-- The decoder constructed by DecodeInstance with kInRate = 1024000 and
kOutRate = 48000 (decode-module.cc lines 39-43). -/
def hostDecoder (sinF cosF expF : ℚ → ℚ) : WBFMDecoder :=
  WBFMDecoder.init sinF cosF expF 1024000 48000

/-- DecodeInstance::process (decode-module.cc lines 91-131): convert the
byte block with samplesFromUint8 and invoke the decoder; no length
validation happens anywhere on this path. -/
def DecodeInstance.process (d : WBFMDecoder) (bytes : List ℕ)
    (inStereo : Bool) : WBFMDecoder × StereoAudio :=
  d.decode (samplesFromUint8 bytes) inStereo

/-! ## General helper lemmas -/

theorem getD_drop (l : List ℚ) (n m : ℕ) (d : ℚ) :
    (l.drop n).getD m d = l.getD (n + m) d := by
  simp [List.getD_eq_getElem?_getD, List.getElem?_drop]

theorem getD_map_range (f : ℕ → ℚ) {n i : ℕ} (h : i < n) :
    ((List.range n).map f).getD i 0 = f i := by
  rw [List.getD_eq_getElem?_getD, List.getElem?_map, List.getElem?_range h]
  rfl

theorem sum_map_div (l : List ℚ) (s : ℚ) :
    (l.map (fun v => v / s)).sum = l.sum / s := by
  induction l with
  | nil => simp
  | cons a t ih => simp [ih, add_div]

theorem truncNat_div_nat (a b : ℕ) :
    truncToNat ((a : ℚ) / (b : ℚ)) = a / b := by
  rw [truncToNat_of_nonneg (by positivity), Nat.floor_div_nat, Nat.floor_natCast]

/-! ## FIRFilter window lemmas -/

theorem loadSamples_curSamples (f : FIRFilter) (A : List ℚ) :
    (f.loadSamples A).curSamples
      = f.curSamples.drop (f.curSamples.length - f.offset) ++ A := rfl

theorem loadSamples_length (f : FIRFilter) (A : List ℚ)
    (h : f.offset ≤ f.curSamples.length) :
    (f.loadSamples A).curSamples.length = f.offset + A.length := by
  simp [loadSamples_curSamples]
  omega

/-- Loading A then B leaves a working window that is the window for the
concatenated block A ++ B with its first A.length entries dropped. -/
theorem load_load_window (f : FIRFilter) (A B : List ℚ)
    (h : f.offset ≤ f.curSamples.length) :
    ((f.loadSamples A).loadSamples B).curSamples
      = ((f.loadSamples (A ++ B)).curSamples).drop A.length := by
  have hlen : (f.loadSamples A).curSamples.length = f.offset + A.length :=
    loadSamples_length f A h
  have hoff : (f.loadSamples A).offset = f.offset := rfl
  rw [loadSamples_curSamples ((f.loadSamples A)) B, hoff, hlen,
      loadSamples_curSamples f A, loadSamples_curSamples f (A ++ B)]
  have hAlen : f.offset + A.length - f.offset = A.length := by omega
  rw [hAlen]
  have hD : (f.curSamples.drop (f.curSamples.length - f.offset)).length = f.offset := by
    simp; omega
  rw [List.drop_append_eq_append_drop]
  rw [List.drop_append_eq_append_drop]
  have h2 : A.length - (f.curSamples.drop (f.curSamples.length - f.offset)).length
        - A.length = 0 := by omega
  rw [List.drop_append_eq_append_drop, h2, List.drop_zero, List.append_assoc]

/-- Claim C2: block-boundary continuity of the FIR filter.  Loading block A
and then block B, every output read for B equals the output read on the
single concatenated stream A ++ B at the corresponding index (shifted by
A.length), for every filter state whose working window already holds at
least `offset` samples (true of the freshly constructed filter and
preserved by every load). -/
theorem fir_filter_block_continuity (f : FIRFilter) (A B : List ℚ) (i : ℕ)
    (h : f.offset ≤ f.curSamples.length) :
    ((f.loadSamples A).loadSamples B).get i
      = (f.loadSamples (A ++ B)).get (A.length + i) := by
  unfold FIRFilter.get
  have hw := load_load_window f A B h
  apply Finset.sum_congr rfl
  intro ic _
  have hc : ((f.loadSamples A).loadSamples B).coefficients
      = (f.loadSamples (A ++ B)).coefficients := rfl
  have hs : ((f.loadSamples A).loadSamples B).step = (f.loadSamples (A ++ B)).step := rfl
  rw [hc, hs, hw, getD_drop]
  have : A.length + (i + ic * (f.loadSamples (A ++ B)).step)
      = A.length + i + ic * (f.loadSamples (A ++ B)).step := by omega
  rw [this]

/-- Witness for C2 at a concrete filter, blocks and index. -/
theorem fir_filter_block_continuity_witness :
    (FIRFilter.init [1, 2] 1).offset ≤ (FIRFilter.init [1, 2] 1).curSamples.length
    ∧ (((FIRFilter.init [1, 2] 1).loadSamples [5]).loadSamples [7]).get 0
        = ((FIRFilter.init [1, 2] 1).loadSamples ([5] ++ [7])).get ([5].length + 0) :=
  ⟨by decide, fir_filter_block_continuity (FIRFilter.init [1, 2] 1) [5] [7] 0 (by decide)⟩

/-! ## Output-length lemmas for the pipeline -/

theorem downsample_length (d : Downsampler) (xs : List ℚ) :
    ((d.downsample xs).2).length = truncToNat ((xs.length : ℚ) / d.rateMul) := by
  simp [Downsampler.downsample]

theorem iq_downsample_fst_length (d : IQDownsampler) (xs : List ℚ) :
    ((d.downsample xs).2.1).length
      = truncToNat ((xs.length : ℚ) / (2 * d.rateMul)) := by
  simp [IQDownsampler.downsample]

theorem iq_downsample_snd_length (d : IQDownsampler) (xs : List ℚ) :
    ((d.downsample xs).2.2).length
      = truncToNat ((xs.length : ℚ) / (2 * d.rateMul)) := by
  simp [IQDownsampler.downsample]

theorem fmLoop_out_length (amplConv : ℚ) (lI lQ sig : ℚ) (l : List (ℚ × ℚ)) :
    (fmLoop amplConv lI lQ sig l).2.2.2.length = l.length := by
  induction l generalizing lI lQ sig with
  | nil => rfl
  | cons p rest ih => simpa [fmLoop] using ih p.1 p.2 (sig + p.1 * p.1)

theorem fmLoop_sig (amplConv : ℚ) (lI lQ sig : ℚ) (l : List (ℚ × ℚ)) :
    (fmLoop amplConv lI lQ sig l).2.2.1
      = sig + (l.map (fun p => p.1 * p.1)).sum := by
  induction l generalizing lI lQ sig with
  | nil => simp [fmLoop]
  | cons p rest ih =>
      simp [fmLoop, ih p.1 p.2 (sig + p.1 * p.1)]
      ring

theorem demodulateTuned_length (d : FMDemodulator) (xs : List ℚ) :
    ((d.demodulateTuned xs).2).length
      = truncToNat ((xs.length : ℚ) / (2 * d.downsampler.rateMul)) := by
  have h1 := iq_downsample_fst_length d.downsampler xs
  have h2 := iq_downsample_snd_length d.downsampler xs
  unfold FMDemodulator.demodulateTuned
  rw [fmLoop_out_length, List.length_zip, h1, h2, Nat.min_self]

theorem sepLoop_out_length (st : StereoSeparator) (xs : List ℚ) :
    ((sepLoop st xs).2).length = xs.length := by
  induction xs generalizing st with
  | nil => rfl
  | cons x rest ih => simpa [sepLoop] using ih (st.sepStep x).1

theorem separate_out_length (st : StereoSeparator) (xs : List ℚ) :
    ((st.separate xs).2.2).length = xs.length := by
  simpa [StereoSeparator.separate] using sepLoop_out_length st xs

theorem deemph_out_length (d : Deemphasizer) (xs : List ℚ) :
    ((d.inPlace xs).2).length = xs.length := by
  induction xs generalizing d with
  | nil => rfl
  | cons x rest ih =>
      simpa [Deemphasizer.inPlace] using
        ih { d with val := (1 - d.mult) * x + d.mult * d.val }

theorem combineDiff_length (xs diff : List ℚ) (c : ℚ)
    (h : diff.length ≤ xs.length) :
    (combineDiff xs diff c).length = xs.length := by
  simp [combineDiff, List.length_zipWith]
  omega

/-- Both channels produced by the combine stage of WBFMDecoder::decode have
the length of the mono downsampler's output, provided the stereo
downsampler never yields a longer block (true whenever both samplers share
one rate multiplier, as in the constructor). -/
theorem decodeCombine_lengths (d : WBFMDecoder) (xs : List ℚ) (b : Bool)
    (h : d.stereoSampler.rateMul = d.monoSampler.rateMul) :
    ((d.decodeCombine xs b).2).left.length
        = truncToNat ((((d.demodulator.demodulateTuned xs).2).length : ℚ)
            / d.monoSampler.rateMul)
    ∧ ((d.decodeCombine xs b).2).right.length
        = truncToNat ((((d.demodulator.demodulateTuned xs).2).length : ℚ)
            / d.monoSampler.rateMul) := by
  have hbase := downsample_length d.monoSampler (d.demodulator.demodulateTuned xs).2
  unfold WBFMDecoder.decodeCombine
  cases b with
  | false => refine ⟨?_, ?_⟩ <;> simpa using hbase
  | true =>
      cases hp : (d.stereoSeparator.separate (d.demodulator.demodulateTuned xs).2).2.1 with
      | false => refine ⟨?_, ?_⟩ <;> simpa [hp] using hbase
      | true =>
          have hdiff : ((d.stereoSampler.downsample
              (d.stereoSeparator.separate
                (d.demodulator.demodulateTuned xs).2).2.2).2).length
              = truncToNat ((((d.demodulator.demodulateTuned xs).2).length : ℚ)
                  / d.monoSampler.rateMul) := by
            rw [downsample_length, separate_out_length, h]
          have hle : ((d.stereoSampler.downsample
              (d.stereoSeparator.separate
                (d.demodulator.demodulateTuned xs).2).2.2).2).length
              ≤ ((d.monoSampler.downsample
                  (d.demodulator.demodulateTuned xs).2).2).length := by
            rw [hdiff, hbase]
          simp only [hp, if_true]
          constructor
          · simpa [hp] using (combineDiff_length _ _ 2 hle).trans hbase
          · simpa [hp] using (combineDiff_length _ _ (-2) hle).trans hbase

/-- Arithmetic of the host's two decimation stages: 1024000 → 336000 on IQ
pairs is a factor 128/21 on pair count, then 336000 → 48000 is a factor 7. -/
theorem hostLenArith (n : ℕ) :
    truncToNat (((truncToNat ((n : ℚ) / (2 * ((1024000 : ℚ) / 336000)))) : ℚ)
        / ((336000 : ℚ) / 48000)) = 21 * n / 128 / 7 := by
  have h1 : ((n : ℚ) / (2 * ((1024000 : ℚ) / 336000)))
      = ((21 * n : ℕ) : ℚ) / ((128 : ℕ) : ℚ) := by
    push_cast
    field_simp
    ring
  rw [h1, truncNat_div_nat]
  have h2 : (((21 * n / 128 : ℕ)) : ℚ) / ((336000 : ℚ) / 48000)
      = ((21 * n / 128 : ℕ) : ℚ) / ((7 : ℕ) : ℚ) := by norm_num
  rw [h2, truncNat_div_nat]

/-- Output lengths of WBFMDecoder::decode on the host's fixed rates: both
channels hold (21·n/128)/7 samples (integer divisions) for an n-sample
input, regardless of the stereo request, the pilot, and the transcendental
instantiations. -/
theorem hostDecoder_decode_length (sF cF eF : ℚ → ℚ) (xs : List ℚ) (b : Bool) :
    (((hostDecoder sF cF eF).decode xs b).2).left.length = 21 * xs.length / 128 / 7
    ∧ (((hostDecoder sF cF eF).decode xs b).2).right.length
        = 21 * xs.length / 128 / 7 := by
  have hrate : (hostDecoder sF cF eF).stereoSampler.rateMul
      = (hostDecoder sF cF eF).monoSampler.rateMul := rfl
  have hc := decodeCombine_lengths (hostDecoder sF cF eF) xs b hrate
  have hdem := demodulateTuned_length (hostDecoder sF cF eF).demodulator xs
  have hr1 : (hostDecoder sF cF eF).demodulator.downsampler.rateMul
      = (1024000 : ℚ) / 336000 := rfl
  have hr2 : (hostDecoder sF cF eF).monoSampler.rateMul
      = (336000 : ℚ) / 48000 := rfl
  rw [hr1] at hdem
  have harith := hostLenArith xs.length
  constructor
  · show (((hostDecoder sF cF eF).decode xs b).2).left.length = _
    unfold WBFMDecoder.decode
    rw [deemph_out_length, hc.1, hr2, hdem, harith]
  · show (((hostDecoder sF cF eF).decode xs b).2).right.length = _
    unfold WBFMDecoder.decode
    rw [deemph_out_length, hc.2, hr2, hdem, harith]

/-! ## Claim C7: host behaviour on empty and odd-length byte blocks -/

/-- Claim C7 (amended): DecodeInstance::process performs no length
validation at all.  For every byte block — empty, odd or even — the block
is decoded, and each output channel holds (21·len/128)/7 samples (integer
divisions); an empty block therefore yields an empty StereoAudio, but an
odd-length block is decoded like any other and is non-empty once the block
is long enough. -/
theorem host_process_no_length_check (sF cF eF : ℚ → ℚ) (bytes : List ℕ)
    (b : Bool) :
    (((DecodeInstance.process (hostDecoder sF cF eF) bytes b).2).left.length
        = 21 * bytes.length / 128 / 7)
    ∧ (((DecodeInstance.process (hostDecoder sF cF eF) bytes b).2).right.length
        = 21 * bytes.length / 128 / 7)
    ∧ (bytes = [] →
        ((DecodeInstance.process (hostDecoder sF cF eF) bytes b).2).left = []
        ∧ ((DecodeInstance.process (hostDecoder sF cF eF) bytes b).2).right = []) := by
  have hp : DecodeInstance.process (hostDecoder sF cF eF) bytes b
      = (hostDecoder sF cF eF).decode (samplesFromUint8 bytes) b := rfl
  have hlen : (samplesFromUint8 bytes).length = bytes.length := by
    simp [samplesFromUint8]
  have h := hostDecoder_decode_length sF cF eF (samplesFromUint8 bytes) b
  rw [hlen] at h
  rw [hp]
  refine ⟨h.1, h.2, ?_⟩
  intro he
  subst he
  constructor
  · exact List.length_eq_zero.mp (h.1.trans (by simp))
  · exact List.length_eq_zero.mp (h.2.trans (by simp))

/-- Witness for the amended C7 at a concrete empty block. -/
theorem host_process_no_length_check_witness :
    ((DecodeInstance.process (hostDecoder id id id) [] false).2).left = []
    ∧ ((DecodeInstance.process (hostDecoder id id id) [] false).2).right = [] :=
  (host_process_no_length_check id id id [] false).2.2 rfl

/-- Counterexample for C7 as stated: a 1001-byte (odd-length) block is not
answered with an empty StereoAudio — the host decodes it into 23 samples
per channel. -/
theorem host_process_odd_block_nonempty :
    (List.replicate 1001 (200 : ℕ)).length % 2 = 1
    ∧ ((DecodeInstance.process (hostDecoder id id id)
          (List.replicate 1001 (200 : ℕ)) false).2).left.length = 23
    ∧ ((DecodeInstance.process (hostDecoder id id id)
          (List.replicate 1001 (200 : ℕ)) false).2).left ≠ [] := by
  have hp : DecodeInstance.process (hostDecoder id id id)
        (List.replicate 1001 (200 : ℕ)) false
      = (hostDecoder id id id).decode
          (samplesFromUint8 (List.replicate 1001 (200 : ℕ))) false := rfl
  have hlen : (samplesFromUint8 (List.replicate 1001 (200 : ℕ))).length = 1001 := by
    simp only [samplesFromUint8, List.length_map, List.length_replicate]
  have h := hostDecoder_decode_length id id id
    (samplesFromUint8 (List.replicate 1001 (200 : ℕ))) false
  rw [hlen] at h
  have h23 : (21 * 1001 / 128 / 7 : ℕ) = 23 := by norm_num
  refine ⟨by simp only [List.length_replicate], ?_, ?_⟩
  · rw [hp]
    exact h.1.trans h23
  · rw [hp]
    intro he
    have h' := h.1.trans h23
    rw [he] at h'
    simp at h'

/-! ## Claim C9: output lengths of the downsamplers and the decoder chain -/

/-- Claim C9: Downsampler::downsample yields exactly ⌊n/r⌋ samples,
IQDownsampler::downsample yields I and Q of exactly ⌊n/(2r)⌋ samples each,
and on the host's fixed rates the decoder's left and right channels of an
even byte block B both hold ⌊(len(B)/2)/r_chain⌋ samples with
r_chain = 1024000/48000. -/
theorem downsampler_output_lengths :
    (∀ (dw : Downsampler) (xs : List ℚ), 0 < dw.rateMul →
      ((dw.downsample xs).2).length = ⌊(xs.length : ℚ) / dw.rateMul⌋₊)
    ∧ (∀ (dq : IQDownsampler) (xs : List ℚ), 0 < dq.rateMul →
      ((dq.downsample xs).2.1).length = ⌊(xs.length : ℚ) / (2 * dq.rateMul)⌋₊
      ∧ ((dq.downsample xs).2.2).length = ⌊(xs.length : ℚ) / (2 * dq.rateMul)⌋₊)
    ∧ (∀ (sF cF eF : ℚ → ℚ) (bs : List ℕ) (b : Bool), bs.length % 2 = 0 →
      (((hostDecoder sF cF eF).decode (samplesFromUint8 bs) b).2).left.length
          = ⌊((bs.length / 2 : ℕ) : ℚ) / ((1024000 : ℚ) / 48000)⌋₊
      ∧ (((hostDecoder sF cF eF).decode (samplesFromUint8 bs) b).2).right.length
          = ⌊((bs.length / 2 : ℕ) : ℚ) / ((1024000 : ℚ) / 48000)⌋₊) := by
  refine ⟨?_, ?_, ?_⟩
  · intro dw xs hr
    rw [downsample_length, truncToNat_of_nonneg (by positivity)]
  · intro dq xs hr
    constructor
    · rw [iq_downsample_fst_length, truncToNat_of_nonneg (by positivity)]
    · rw [iq_downsample_snd_length, truncToNat_of_nonneg (by positivity)]
  · intro sF cF eF bs b heven
    obtain ⟨k, hk⟩ : ∃ k, bs.length = 2 * k := ⟨bs.length / 2, by omega⟩
    have hfloor : ⌊((bs.length / 2 : ℕ) : ℚ) / ((1024000 : ℚ) / 48000)⌋₊
        = 3 * k / 64 := by
      have hhalf : bs.length / 2 = k := by omega
      rw [hhalf]
      have : ((k : ℚ)) / ((1024000 : ℚ) / 48000)
          = ((3 * k : ℕ) : ℚ) / ((64 : ℕ) : ℚ) := by
        push_cast
        field_simp
        ring
      rw [this, Nat.floor_div_nat, Nat.floor_natCast]
    have hchain : 21 * (2 * k) / 128 / 7 = 3 * k / 64 := by
      rw [Nat.div_div_eq_div_mul]
      have h1 : 21 * (2 * k) = (3 * k) * 14 := by ring
      have h2 : (128 * 7 : ℕ) = 64 * 14 := by norm_num
      rw [h1, h2, Nat.mul_div_mul_right]
      norm_num
    have hlen : (samplesFromUint8 bs).length = 2 * k := by
      simpa [samplesFromUint8] using hk
    have h := hostDecoder_decode_length sF cF eF (samplesFromUint8 bs) b
    rw [hlen, hchain] at h
    rw [hfloor]
    exact h

/-- Witness for C9 at concrete inputs. -/
theorem downsampler_output_lengths_witness :
    ((0 : ℚ) < 2)
    ∧ ((({ filter := FIRFilter.init [1] 1, rateMul := 2 } : Downsampler).downsample
          [1, 2, 3]).2).length = ⌊(([1, 2, 3] : List ℚ).length : ℚ) / (2 : ℚ)⌋₊
    ∧ (((hostDecoder id id id).decode (samplesFromUint8 [128, 128]) false).2).left.length
        = ⌊((([128, 128] : List ℕ).length / 2 : ℕ) : ℚ) / ((1024000 : ℚ) / 48000)⌋₊ :=
  ⟨by norm_num,
   downsampler_output_lengths.1 { filter := FIRFilter.init [1] 1, rateMul := 2 }
     [1, 2, 3] (by norm_num),
   (downsampler_output_lengths.2.2 id id id [128, 128] false rfl).1⟩

/-! ## Claim C3: the FM carrier flag -/

/-- A one-tap FM demodulator state over a unit filter with rate ratio 1,
used to evaluate the carrier flag on a concrete block. -/
def c3Demod : FMDemodulator :=
  { amplConv := 1
    downsampler := { filter := FIRFilter.init [1] 2, rateMul := 1 }
    lI := 0
    lQ := 0
    hasCarrier := false }

/-- Counterexample for C3 as stated: on the block [0, 1] the downsampled
samples are I = [0], Q = [1], whose mean instantaneous power I²+Q² is 1 and
exceeds 0.002, yet the carrier flag comes out false — the code accumulates
only I·I. -/
theorem fm_carrier_flag_counterexample :
    (c3Demod.downsampler.downsample [0, 1]).2 = ([0], [1])
    ∧ ((0 * 0 + 1 * 1 : ℚ) / 1 > 0.002)
    ∧ (c3Demod.demodulateTuned [0, 1]).1.hasCarrier = false := by
  refine ⟨?_, by norm_num, ?_⟩
  · norm_num [c3Demod, IQDownsampler.downsample, FIRFilter.loadSamples, FIRFilter.init,
      FIRFilter.get, truncToNat, truncToInt, Finset.sum_range_succ, List.range_succ]
  · norm_num [c3Demod, FMDemodulator.demodulateTuned, IQDownsampler.downsample,
      FIRFilter.loadSamples, FIRFilter.init, FIRFilter.get, truncToNat, truncToInt,
      Finset.sum_range_succ, fmLoop]

/-- Claim C3 (amended): after FMDemodulator::demodulateTuned, the carrier
flag is true iff the sum over the block of I² alone (the in-phase component
of the downsampled samples; Q is ignored) exceeds 0.002 times the block
length. -/
theorem fm_carrier_flag_i_component (d : FMDemodulator) (samples : List ℚ) :
    ((d.demodulateTuned samples).1.hasCarrier = true
      ↔ (((d.downsampler.downsample samples).2.1.map (fun a => a * a)).sum
          > 0.002 * (((d.downsampler.downsample samples).2.1).length : ℚ))) := by
  have hlen1 := iq_downsample_fst_length d.downsampler samples
  have hlen2 := iq_downsample_snd_length d.downsampler samples
  have hle : ((d.downsampler.downsample samples).2.1).length
      ≤ ((d.downsampler.downsample samples).2.2).length := by
    rw [hlen1, hlen2]
  have hmap : (((d.downsampler.downsample samples).2.1.zip
        (d.downsampler.downsample samples).2.2).map (fun p => p.1 * p.1))
      = (d.downsampler.downsample samples).2.1.map (fun a => a * a) := by
    have h1 : (((d.downsampler.downsample samples).2.1.zip
          (d.downsampler.downsample samples).2.2).map Prod.fst).map (fun a => a * a)
        = (d.downsampler.downsample samples).2.1.map (fun a => a * a) := by
      rw [List.map_fst_zip _ _ hle]
    rw [← h1, List.map_map]
    rfl
  have hsig := fmLoop_sig d.amplConv d.lI d.lQ 0
    ((d.downsampler.downsample samples).2.1.zip (d.downsampler.downsample samples).2.2)
  rw [hmap, zero_add] at hsig
  unfold FMDemodulator.demodulateTuned
  rw [decide_eq_true_iff, hsig]

/-! ## Claim C5: the correlation branches and the pilot decision -/

/-- Claim C5: in StereoSeparator::separate, corr is hdev/vdev clamped to
[-4, 4] when vdev > 0, is 0 when vdev ≤ 0 and hdev = 0, and is ±4 with the
sign of hdev when vdev ≤ 0 and hdev ≠ 0; and the pilot flag of a block is
exactly the test cavg < 4 on the exponential average after the whole block
was processed. -/
theorem stereo_corr_and_pilot_spec :
    (∀ hdev vdev : ℚ,
      (0 < vdev → sepCorr hdev vdev = max (-4) (min 4 (hdev / vdev)))
      ∧ (¬ 0 < vdev → hdev = 0 → sepCorr hdev vdev = 0)
      ∧ (¬ 0 < vdev → hdev ≠ 0 →
          sepCorr hdev vdev = if 0 < hdev then 4 else -4))
    ∧ (∀ (st : StereoSeparator) (xs : List ℚ),
      ((st.separate xs).2.1 = true ↔ (st.separate xs).1.cavg.avg < 4)) := by
  constructor
  · intro hdev vdev
    refine ⟨?_, ?_, ?_⟩
    · intro hv
      simp [sepCorr, hv]
    · intro hv h0
      simp [sepCorr, hv, h0]
    · intro hv h0
      simp [sepCorr, hv, h0]
  · intro st xs
    simp [StereoSeparator.separate]

/-- Witness for C5 at concrete deviations. -/
theorem stereo_corr_and_pilot_spec_witness :
    sepCorr 1 1 = max (-4) (min 4 ((1 : ℚ) / 1))
    ∧ sepCorr 1 0 = if (0 : ℚ) < 1 then 4 else -4 :=
  ⟨(stereo_corr_and_pilot_spec.1 1 1).1 one_pos,
   (stereo_corr_and_pilot_spec.1 1 0).2.2 (lt_irrefl 0) one_ne_zero⟩

/-! ## Claim C10: the table index is always in bounds -/

/-- Claim C10: every branch of the correlation computation confines corr to
[-4, 4], so the table index round((corr+4)·1000) lies in [0, 8000] and
every lookup hits one of the 8001 entries the constructor builds. -/
theorem stereo_table_index_in_bounds :
    (∀ hdev vdev : ℚ, 0 ≤ sepIdx (sepCorr hdev vdev)
      ∧ (sepIdx (sepCorr hdev vdev)).toNat < 8001)
    ∧ (∀ (sF cF : ℚ → ℚ) (sr pf : ℤ),
        (StereoSeparator.init sF cF sr pf).sinTable.length = 8001
        ∧ (StereoSeparator.init sF cF sr pf).cosTable.length = 8001) := by
  constructor
  · intro hdev vdev
    have hb : -4 ≤ sepCorr hdev vdev ∧ sepCorr hdev vdev ≤ 4 := by
      unfold sepCorr
      split
      · constructor
        · exact le_max_left _ _
        · exact max_le (by norm_num) (min_le_left _ _)
      · split
        · norm_num
        · split <;> norm_num
    have h0 : (0 : ℚ) ≤ (sepCorr hdev vdev + 4) * 1000 := by nlinarith [hb.1]
    have h1 : (sepCorr hdev vdev + 4) * 1000 ≤ 8000 := by nlinarith [hb.2]
    unfold sepIdx roundHalfAway
    rw [if_pos h0]
    have hfl : 0 ≤ ⌊(sepCorr hdev vdev + 4) * 1000 + 1 / 2⌋ :=
      Int.floor_nonneg.mpr (by linarith)
    have hfu : ⌊(sepCorr hdev vdev + 4) * 1000 + 1 / 2⌋ < 8001 := by
      apply Int.floor_lt.mpr
      push_cast
      linarith
    exact ⟨hfl, by omega⟩
  · intro sF cF sr pf
    constructor <;> simp [StereoSeparator.init]

/-! ## Claim C8: the separator table angles -/

/-- Claim C8 evaluated on the code: because the constructor computes
`i / 100` in integer arithmetic, entries 0 and 1 of the tables are built
from the same angle (detune −40 Hz), the entry for i = 1 is the angle of
18960 Hz rather than 18960.01 Hz, while the claimed exact-rational formula
gives different angles for i = 0 and i = 1. -/
theorem stereo_table_integer_division :
    tableFreq 336000 19000 1 = tableFreq 336000 19000 0
    ∧ tableFreq 336000 19000 1 = (18960 : ℚ) * k2Pi / 336000
    ∧ ((19000 : ℚ) + 1 / 100 - 40) * k2Pi / 336000
        ≠ ((19000 : ℚ) + 0 / 100 - 40) * k2Pi / 336000 := by
  refine ⟨by norm_num [tableFreq], by norm_num [tableFreq], ?_⟩
  norm_num [k2Pi, kPi]

/-! ## Claim C6: the AM DC estimate -/

theorem int_toNat_two : (2 : ℤ).toNat = 2 := rfl

/-- A one-tap AM demodulator state over a unit filter with rate ratio 1 and
the identity in place of sqrt, used to evaluate the demodulator on a
concrete block. -/
def c6Demod : AMDemodulator :=
  { downsampler := { filter := FIRFilter.init [1] 2, rateMul := 1 }
    sqrtF := id
    hasCarrier := false }

/-- Claim C6 evaluated on the code: for the downsampled block I = [9/10,
3/10] (Q = [0, 0]) the code's DC estimate is 0 — std::accumulate with the
int literal 0 truncates every partial sum, and the int division by outLen
keeps it 0 — while the arithmetic mean of the claim is 3/5; the resulting
audio is [4/5, -4/5] instead of the [0, 0] a true mean subtraction would
give here. -/
theorem am_dc_average_truncation :
    (c6Demod.downsampler.downsample [9/10, 0, 3/10, 0]).2 = ([9/10, 3/10], [0, 0])
    ∧ amDCAverage [9/10, 3/10] = 0
    ∧ ((9/10 + 3/10 : ℚ) / 2 = 3/5)
    ∧ ((0 : ℚ) ≠ 3/5)
    ∧ (c6Demod.demodulateTuned [9/10, 0, 3/10, 0]).2 = [4/5, -4/5] := by
  refine ⟨?_, ?_, by norm_num, by norm_num, ?_⟩
  · norm_num [c6Demod, IQDownsampler.downsample, FIRFilter.loadSamples, FIRFilter.init,
      FIRFilter.get, truncToNat, truncToInt, Finset.sum_range_succ, List.range_succ,
      int_toNat_two]
  · norm_num [amDCAverage, truncToInt]
  · norm_num [c6Demod, AMDemodulator.demodulateTuned, amDCAverage, IQDownsampler.downsample,
      FIRFilter.loadSamples, FIRFilter.init, FIRFilter.get, truncToNat, truncToInt,
      Finset.sum_range_succ, List.range_succ, int_toNat_two]

/-! ## Claim C4: the low-pass kernel generator -/

/-- The Blackman window as the specification states it:
0.42 − 0.5·cos(2π(i+1)/(L+1)) + 0.08·cos(4π(i+1)/(L+1)). -/
def blackmanW (cosF : ℚ → ℚ) (L i : ℕ) : ℚ :=
  0.42 - 0.5 * cosF (2 * kPi * ((i : ℚ) + 1) / ((L : ℚ) + 1))
    + 0.08 * cosF (4 * kPi * ((i : ℚ) + 1) / ((L : ℚ) + 1))

/-- The claimed value of tap i before normalization, with m = (L−1)/2 and
ω = 2π·fc/fs: ω at the center, sin(ω(i−m))/(i−m) times the Blackman window
elsewhere. -/
def lowpassSpecTap (sinF cosF : ℚ → ℚ) (fs : ℤ) (fc : ℚ) (L i : ℕ) : ℚ :=
  if i = (L - 1) / 2 then k2Pi * (fc / (fs : ℚ))
  else
    sinF (k2Pi * (fc / (fs : ℚ)) * (((i : ℤ) - (((L - 1) / 2 : ℕ) : ℤ) : ℤ) : ℚ))
        / (((i : ℤ) - (((L - 1) / 2 : ℕ) : ℤ) : ℤ) : ℚ) * blackmanW cosF L i

/-- The pre-normalization sum of the claimed taps. -/
def lowpassSpecSum (sinF cosF : ℚ → ℚ) (fs : ℤ) (fc : ℚ) (L : ℕ) : ℚ :=
  ((List.range L).map (lowpassSpecTap sinF cosF fs fc L)).sum

theorem lowpassVal_eq_spec (sinF cosF : ℚ → ℚ) (fs : ℤ) (fc : ℚ) (L' : ℕ)
    (hodd : L' % 2 = 1) (i : ℕ) :
    lowpassVal sinF cosF (fc / (fs : ℚ)) L' (L' / 2) i
      = lowpassSpecTap sinF cosF fs fc L' i := by
  have hm : (L' - 1) / 2 = L' / 2 := by omega
  unfold lowpassVal lowpassSpecTap blackmanW
  rw [hm]
  by_cases hi : i = L' / 2
  · simp [hi]
  · simp only [hi, if_false]
    have h1 : k2Pi * ((i : ℚ) + 1) / ((L' : ℚ) + 1)
        = 2 * kPi * ((i : ℚ) + 1) / ((L' : ℚ) + 1) := by rw [k2Pi]
    have h2 : 2 * (k2Pi * ((i : ℚ) + 1) / ((L' : ℚ) + 1))
        = 4 * kPi * ((i : ℚ) + 1) / ((L' : ℚ) + 1) := by rw [k2Pi]; ring
    rw [← h1, ← h2]

/-- Claim C4: getLowPassFIRCoeffs forces the kernel length odd (adding 1 to
an even request), produces that many taps, each equal to the claimed
windowed-sinc value (ω at the center m = (L−1)/2, sin(ω(i−m))/(i−m) times
the Blackman window elsewhere) divided by the pre-normalization sum, and
when that sum is nonzero the normalized coefficients sum to 1. -/
theorem lowpass_fir_coeffs_spec (sinF cosF : ℚ → ℚ) (fs : ℤ) (fc : ℚ) (L : ℕ) :
    (L + (L + 1) % 2) % 2 = 1
    ∧ (L % 2 = 0 → L + (L + 1) % 2 = L + 1)
    ∧ (L % 2 = 1 → L + (L + 1) % 2 = L)
    ∧ (getLowPassFIRCoeffs sinF cosF fs fc L).length = L + (L + 1) % 2
    ∧ (∀ i, i < L + (L + 1) % 2 →
        (getLowPassFIRCoeffs sinF cosF fs fc L).getD i 0
          = lowpassSpecTap sinF cosF fs fc (L + (L + 1) % 2) i
              / lowpassSpecSum sinF cosF fs fc (L + (L + 1) % 2))
    ∧ (lowpassSpecSum sinF cosF fs fc (L + (L + 1) % 2) ≠ 0 →
        (getLowPassFIRCoeffs sinF cosF fs fc L).sum = 1) := by
  have hodd : (L + (L + 1) % 2) % 2 = 1 := by omega
  have hvals : (List.range (L + (L + 1) % 2)).map
        (lowpassVal sinF cosF (fc / (fs : ℚ)) (L + (L + 1) % 2) ((L + (L + 1) % 2) / 2))
      = (List.range (L + (L + 1) % 2)).map
          (lowpassSpecTap sinF cosF fs fc (L + (L + 1) % 2)) :=
    List.map_congr_left (fun i _ => lowpassVal_eq_spec sinF cosF fs fc _ hodd i)
  have hdef : getLowPassFIRCoeffs sinF cosF fs fc L
      = ((List.range (L + (L + 1) % 2)).map
            (lowpassSpecTap sinF cosF fs fc (L + (L + 1) % 2))).map
          (fun v => v / lowpassSpecSum sinF cosF fs fc (L + (L + 1) % 2)) := by
    simp only [getLowPassFIRCoeffs, lowpassSpecSum]
    rw [hvals]
  refine ⟨hodd, by omega, by omega, ?_, ?_, ?_⟩
  · rw [hdef]
    simp
  · intro i hi
    rw [hdef, List.map_map]
    exact getD_map_range _ hi
  · intro hs
    rw [hdef, sum_map_div]
    exact div_self hs

/-- Witness for C4 at sinF = cosF = id, fs = 2, fc = 1, requested length 2
(forced to 3). -/
theorem lowpass_fir_coeffs_spec_witness :
    ((2 : ℕ) % 2 = 0 ∧ 2 + (2 + 1) % 2 = 2 + 1)
    ∧ ((1 : ℕ) < 2 + (2 + 1) % 2
        ∧ (getLowPassFIRCoeffs id id 2 1 2).getD 1 0
            = lowpassSpecTap id id 2 1 (2 + (2 + 1) % 2) 1
                / lowpassSpecSum id id 2 1 (2 + (2 + 1) % 2))
    ∧ (lowpassSpecSum id id 2 1 (2 + (2 + 1) % 2) ≠ 0
        ∧ (getLowPassFIRCoeffs id id 2 1 2).sum = 1) := by
  have h := lowpass_fir_coeffs_spec id id 2 1 2
  have hs : lowpassSpecSum id id 2 1 (2 + (2 + 1) % 2) ≠ 0 := by
    norm_num [lowpassSpecSum, lowpassSpecTap, blackmanW, List.range_succ, kPi, k2Pi]
  exact ⟨⟨rfl, h.2.1 rfl⟩, ⟨by norm_num, h.2.2.2.2.1 1 (by norm_num)⟩,
    ⟨hs, h.2.2.2.2.2 hs⟩⟩

/-! ## Claim C1: the stereo combine stage of WBFMDecoder::decode -/

/-- The demodulated block of a decode call (wbfm_decoder.cc line 40). -/
def WBFMDecoder.demodOut (d : WBFMDecoder) (samples : List ℚ) : List ℚ :=
  (d.demodulator.demodulateTuned samples).2

/-- The mono downsampler's output (wbfm_decoder.cc line 44). -/
def WBFMDecoder.monoOut (d : WBFMDecoder) (samples : List ℚ) : List ℚ :=
  (d.monoSampler.downsample (d.demodOut samples)).2

/-- The pilot flag reported by the separator on the demodulated block
(wbfm_decoder.cc lines 49-50). -/
def WBFMDecoder.sepPilot (d : WBFMDecoder) (samples : List ℚ) : Bool :=
  (d.stereoSeparator.separate (d.demodOut samples)).2.1

/-- The downsampled stereo difference signal (wbfm_decoder.cc line 51). -/
def WBFMDecoder.diffOut (d : WBFMDecoder) (samples : List ℚ) : List ℚ :=
  (d.stereoSampler.downsample
    (d.stereoSeparator.separate (d.demodOut samples)).2.2).2

theorem combineDiff_nil (diff : List ℚ) (c : ℚ) : combineDiff [] diff c = [] := by
  simp [combineDiff]

theorem combineDiff_nil_diff (xs : List ℚ) (c : ℚ) : combineDiff xs [] c = xs := by
  simp [combineDiff]

theorem combineDiff_cons (x b : ℚ) (xs bs : List ℚ) (c : ℚ) :
    combineDiff (x :: xs) (b :: bs) c = (x + c * b) :: combineDiff xs bs c := by
  simp [combineDiff]

theorem combineDiff_getD_lt (xs diff : List ℚ) (c : ℚ) (i : ℕ)
    (h1 : i < diff.length) (h2 : i < xs.length) :
    (combineDiff xs diff c).getD i 0 = xs.getD i 0 + c * diff.getD i 0 := by
  induction xs generalizing diff i with
  | nil => simp at h2
  | cons x xt ih =>
      cases diff with
      | nil => simp at h1
      | cons b bt =>
          rw [combineDiff_cons]
          cases i with
          | zero => simp
          | succ j =>
              simp only [List.getD_cons_succ]
              exact ih bt j (by simpa using h1) (by simpa using h2)

theorem combineDiff_getD_ge (xs diff : List ℚ) (c : ℚ) (i : ℕ)
    (h : diff.length ≤ i) :
    (combineDiff xs diff c).getD i 0 = xs.getD i 0 := by
  induction xs generalizing diff i with
  | nil => simp [combineDiff_nil]
  | cons x xt ih =>
      cases diff with
      | nil => rw [combineDiff_nil_diff]
      | cons b bt =>
          rw [combineDiff_cons]
          cases i with
          | zero => simp at h
          | succ j =>
              simp only [List.getD_cons_succ]
              exact ih bt j (by simpa using h)

/-- Claim C1: WBFMDecoder::decode first fills both channels with the mono
downsample of the demodulated block and inStereo = false; only when stereo
was requested and the separator reports a pilot does it add 2·diff[i] to
left[i] and subtract 2·diff[i] from right[i] (indices past the difference
block untouched) and set inStereo = true; otherwise left and right stay
equal.  This is the combine stage of lines 39-57, before the de-emphasis
of lines 60-61. -/
theorem wbfm_decode_stereo_combine (d : WBFMDecoder) (samples : List ℚ)
    (inStereo : Bool) :
    ((inStereo = false ∨ d.sepPilot samples = false) →
      ((d.decodeCombine samples inStereo).2.left = d.monoOut samples
       ∧ (d.decodeCombine samples inStereo).2.right
           = (d.decodeCombine samples inStereo).2.left
       ∧ (d.decodeCombine samples inStereo).2.inStereo = false))
    ∧ (inStereo = true → d.sepPilot samples = true →
        ((d.decodeCombine samples inStereo).2.inStereo = true
         ∧ ((d.diffOut samples).length ≤ (d.monoOut samples).length →
            (∀ i, i < (d.diffOut samples).length →
              ((d.decodeCombine samples inStereo).2.left.getD i 0
                  = (d.monoOut samples).getD i 0 + 2 * (d.diffOut samples).getD i 0
               ∧ (d.decodeCombine samples inStereo).2.right.getD i 0
                  = (d.monoOut samples).getD i 0 - 2 * (d.diffOut samples).getD i 0))
            ∧ (∀ i, (d.diffOut samples).length ≤ i →
              ((d.decodeCombine samples inStereo).2.left.getD i 0
                  = (d.monoOut samples).getD i 0
               ∧ (d.decodeCombine samples inStereo).2.right.getD i 0
                  = (d.monoOut samples).getD i 0))))) := by
  cases inStereo with
  | false =>
      constructor
      · intro _
        exact ⟨rfl, rfl, rfl⟩
      · intro h
        exact absurd h (by simp)
  | true =>
      cases hp : d.sepPilot samples with
      | false =>
          have hbase : (d.decodeCombine samples true).2.left = d.monoOut samples
              ∧ (d.decodeCombine samples true).2.right = d.monoOut samples
              ∧ (d.decodeCombine samples true).2.inStereo = false := by
            simp only [WBFMDecoder.decodeCombine, show (d.stereoSeparator.separate
                (d.demodulator.demodulateTuned samples).2).2.1 = false from hp,
              WBFMDecoder.monoOut, WBFMDecoder.demodOut]
            simp
          constructor
          · intro _
            exact ⟨hbase.1, hbase.2.1.trans hbase.1.symm, hbase.2.2⟩
          · intro _ h
            exact absurd h (by simp)
      | true =>
          have hpeq : (d.stereoSeparator.separate
              (d.demodulator.demodulateTuned samples).2).2.1 = true := hp
          have hleft : (d.decodeCombine samples true).2.left
              = combineDiff (d.monoOut samples) (d.diffOut samples) 2 := by
            simp only [WBFMDecoder.decodeCombine, hpeq, WBFMDecoder.monoOut,
              WBFMDecoder.demodOut, WBFMDecoder.diffOut]
            simp
          have hright : (d.decodeCombine samples true).2.right
              = combineDiff (d.monoOut samples) (d.diffOut samples) (-2) := by
            simp only [WBFMDecoder.decodeCombine, hpeq, WBFMDecoder.monoOut,
              WBFMDecoder.demodOut, WBFMDecoder.diffOut]
            simp
          have hflag : (d.decodeCombine samples true).2.inStereo = true := by
            simp only [WBFMDecoder.decodeCombine, hpeq]
            simp
          constructor
          · intro h
            rcases h with h | h
            · exact absurd h (by simp)
            · exact absurd h (by simp)
          · intro _ _
            refine ⟨hflag, fun hle => ⟨?_, ?_⟩⟩
            · intro i hi
              rw [hleft, hright]
              exact ⟨combineDiff_getD_lt _ _ 2 i hi (lt_of_lt_of_le hi hle),
                by rw [combineDiff_getD_lt _ _ (-2) i hi (lt_of_lt_of_le hi hle)]; ring⟩
            · intro i hi
              rw [hleft, hright]
              exact ⟨combineDiff_getD_ge _ _ 2 i hi, combineDiff_getD_ge _ _ (-2) i hi⟩

/-- A minimal decoder state used to witness C1: unit filters, empty tables,
zero EMAs (so the pilot test 0 < 4 is true on an empty block). -/
def w1Decoder : WBFMDecoder :=
  { demodulator :=
      { amplConv := 1
        downsampler := { filter := FIRFilter.init [1] 2, rateMul := 1 }
        lI := 0
        lQ := 0
        hasCarrier := false }
    filterCoefs := [1]
    monoSampler := { filter := FIRFilter.init [1] 1, rateMul := 1 }
    stereoSampler := { filter := FIRFilter.init [1] 1, rateMul := 1 }
    stereoSeparator :=
      { sinTable := []
        cosTable := []
        sinP := 0
        cosP := 1
        iavg := { weight := 1, avg := 0 }
        qavg := { weight := 1, avg := 0 }
        cavg := { weight := 1, avg := 0 } }
    leftDeemph := { mult := 0, val := 0 }
    rightDeemph := { mult := 0, val := 0 } }

/-- Witness for C1 in both branches at a concrete decoder and block. -/
theorem wbfm_decode_stereo_combine_witness :
    w1Decoder.sepPilot [] = true
    ∧ (w1Decoder.decodeCombine [] true).2.inStereo = true
    ∧ (w1Decoder.decodeCombine [] false).2.inStereo = false := by
  have hpilot : w1Decoder.sepPilot [] = true := by
    norm_num [WBFMDecoder.sepPilot, WBFMDecoder.demodOut, w1Decoder,
      StereoSeparator.separate, sepLoop, FMDemodulator.demodulateTuned,
      IQDownsampler.downsample, FIRFilter.loadSamples, FIRFilter.init,
      truncToNat, truncToInt, fmLoop]
  exact ⟨hpilot,
    ((wbfm_decode_stereo_combine w1Decoder [] true).2 rfl hpilot).1,
    ((wbfm_decode_stereo_combine w1Decoder [] false).1 (Or.inl rfl)).2.2⟩

end RadioReceiver
